import Mathlib

/-!
Verification of the paper-deprecations repository (Go).

The Go sources are shallowly embedded below:
* `templates/version.go`   → `CompareVersions`
* `cache/cache.go`         → `Cache`, `LoadCache`
* `cmd/main.go` / the later `main.go` revision → `isCacheValid`, `getClassPath`,
  `generateReport` (grouping and sorting of the report)
* `parser.go` (the revision using `golang.org/x/net/html`) →
  `ParseDeprecations`, `processDeprecatedItem`, `extractDeprecatedSince`,
  `findElementNodeByID`, `extractDeprecatedSinceFromNode`

Strings are manipulated as `List Char`; the Go standard-library string
functions used by the sources (`strings.Split`, `strings.Trim`,
`strings.TrimSuffix`, `strings.TrimSpace`, `strconv.Atoi`, ...) are given
direct executable models.
-/

/-- Model of Go `strings.Split(s, sep)` for a one-character separator:
splits around every occurrence of the separator. -/
def splitOnChar (sep : Char) : List Char → List (List Char)
  | [] => [[]]
  | c :: cs =>
    let rest := splitOnChar sep cs
    if c = sep then [] :: rest
    else
      match rest with
      | [] => [[c]]
      | r :: rs => (c :: r) :: rs

/-- Model of Go `strings.TrimPrefix(s, "v")`: drop one leading 'v' if present. -/
def trimLeadingV : List Char → List Char
  | 'v' :: cs => cs
  | cs => cs

/-- Value of a list of decimal digits, `none` if empty or a non-digit occurs.
Helper for the model of `strconv.Atoi`. -/
def digitsVal (l : List Char) : Option Int :=
  if l ≠ [] ∧ l.all Char.isDigit then
    some (l.foldl (fun a c => a * 10 + (Int.ofNat (c.toNat - 48))) 0)
  else none

/-- Model of Go `strconv.Atoi` as used by `CompareVersions`: the error is
ignored there, and Go's `Atoi` returns the value `0` together with the error
on a syntax error, so non-numeric segments count as `0`.  (Go's 64-bit
overflow behaviour is not modelled; version segments are small.) -/
def goAtoi (s : List Char) : Int :=
  match s with
  | '+' :: rest => (digitsVal rest).getD 0
  | '-' :: rest => -((digitsVal rest).getD 0)
  | _ => (digitsVal s).getD 0

/-- The loop of `CompareVersions` (templates/version.go): walk the two
segment lists in lockstep, first numeric difference decides; if the common
prefix is exhausted the longer segment list wins. -/
def comparePartsGo : List (List Char) → List (List Char) → Bool
  | a :: as, b :: bs =>
    if goAtoi a = goAtoi b then comparePartsGo as bs
    else decide (goAtoi a > goAtoi b)
  | as, bs => decide (as.length > bs.length)

/-- `CompareVersions` (templates/version.go): returns `true` when version `a`
is newer than version `b`; splits on '.', after dropping a leading "v", and
compares segment-wise numerically. -/
def CompareVersions (a b : String) : Bool :=
  comparePartsGo (splitOnChar '.' (trimLeadingV a.data))
    (splitOnChar '.' (trimLeadingV b.data))

/-- The numeric key a version string is compared by. -/
def versionKey (a : String) : List Int :=
  (splitOnChar '.' (trimLeadingV a.data)).map goAtoi

/-- Pure comparison on numeric keys. -/
def keyGT : List Int → List Int → Bool
  | a :: as, b :: bs => if a = b then keyGT as bs else decide (a > b)
  | as, bs => decide (as.length > bs.length)

/-!
### Cache store (cache/cache.go) and the cache decision in main.go
Timestamps and durations are modelled in nanoseconds as signed integers,
mirroring Go's `time.Time`/`time.Duration`; `time.Since(t)` is `now - t`.
-/

/-- `CacheEntry` (cache/cache.go): one version bucket of the snapshot. -/
structure CacheEntry where
  version : String
  items : List String
  lastUpdated : Int
deriving DecidableEq, Repr

/-- `Cache` (cache/cache.go): the persisted snapshot. -/
structure Cache where
  entries : List CacheEntry
deriving DecidableEq, Repr

/-- Outcome of `os.ReadFile`, distinguishing the `os.IsNotExist` case the
way `LoadCache` does. -/
inductive FileReadResult where
  | ok (data : String)
  | notExist
  | otherErr (msg : String)

/-- `LoadCache` (cache/cache.go): a missing file yields the empty snapshot
`&Cache{}` with no error; any other read error is returned as-is; a
`json.Unmarshal` failure is returned as-is.  The JSON decoder
(`encoding/json`, external to this repository) is a parameter. -/
def LoadCache (read : FileReadResult)
    (unmarshal : String → Except String Cache) : Except String Cache :=
  match read with
  | .notExist => .ok ⟨[]⟩
  | .otherErr msg => .error msg
  | .ok data =>
    match unmarshal data with
    | .error e => .error e
    | .ok c => .ok c

/-- A duration of `h` hours in nanoseconds (`h * time.Hour`). -/
def hoursNs (h : Int) : Int := h * 3600 * 1000000000

/-- `isCacheValid` (cmd/main.go): `time.Since(lastUpdated) < maxAge`,
with `time.Since(t) = now - t`. -/
def isCacheValid (now lastUpdated maxAge : Int) : Bool :=
  decide (now - lastUpdated < maxAge)

/-- The cache decision of `main` (cmd/main.go lines 45–67): the pipeline is
short-circuited by the snapshot exactly when caching was requested, the
snapshot loaded without error, it has at least one entry, and the first
entry's `lastUpdated` passes `isCacheValid` with a 24-hour max age. -/
def usesCacheShortCircuit (useCachedData : Bool)
    (loaded : Except String Cache) (now : Int) : Bool :=
  useCachedData &&
    match loaded with
    | .error _ => false
    | .ok c =>
      match c.entries with
      | [] => false
      | e :: _ => isCacheValid now e.lastUpdated (hoursNs 24)

/-!
### Detail extractor (parser.go, the `golang.org/x/net/html` revision)

An `golang.org/x/net/html` node tree is embedded as `HNode`.  `html.Parse`
(an external library, error-tolerant on any input) is not re-implemented:
pages are handed to the extractor already in tree form, so the fetch
capability below yields the parsed page.
-/

/-- A parsed HTML node: either a text node or an element with a tag name,
attributes and children (`html.Node` with `Data`, `Attr`, the
`FirstChild`/`NextSibling` chain). -/
inductive HNode where
  | text (s : String)
  | elem (tag : String) (attrs : List (String × String)) (children : List HNode)
deriving Repr

/-- The attribute loop used by the Go code: does some attribute have this
key and value? -/
def hasAttrVal (attrs : List (String × String)) (key val : String) : Bool :=
  attrs.any (fun a => a.1 = key && a.2 = val)

mutual
/-- `findElementNodeByID` (parser.go): depth-first search for a `section`
element whose `id` attribute equals `id`.  The Go code stores hits in a
shared `found` variable and prunes the children of a hit, so a hit found
later in document order overwrites an earlier one: the result is the *last*
match in the pruned preorder traversal. -/
def findElementNodeByID (id : String) : HNode → Option HNode
  | .text _ => none
  | .elem tag attrs cs =>
    if tag = "section" && hasAttrVal attrs "id" id then some (.elem tag attrs cs)
    else findLastByID id cs

/-- Sibling walk of `findElementNodeByID`: later siblings overwrite the
`found` variable, so the scan prefers the rightmost subtree with a match. -/
def findLastByID (id : String) : List HNode → Option HNode
  | [] => none
  | c :: rest =>
    match findLastByID id rest with
    | some r => some r
    | none => findElementNodeByID id c
end

mutual
/-- The nested `findAnnotationsSpan` of `extractDeprecatedSinceFromNode`
(parser.go): first (preorder) `span` element with `class="annotations"`. -/
def findAnnotationsSpan : HNode → Option HNode
  | .text _ => none
  | .elem tag attrs cs =>
    if tag = "span" && hasAttrVal attrs "class" "annotations" then
      some (.elem tag attrs cs)
    else findAnnotationsSpanList cs

/-- Sibling walk of `findAnnotationsSpan`: first subtree with a match wins. -/
def findAnnotationsSpanList : List HNode → Option HNode
  | [] => none
  | c :: rest =>
    match findAnnotationsSpan c with
    | some r => some r
    | none => findAnnotationsSpanList rest
end

/-- Does `l` start with `pat`? -/
def startsWithList : List Char → List Char → Bool
  | [], _ => true
  | _ :: _, [] => false
  | p :: ps, c :: cs => p = c && startsWithList ps cs

/-- Model of Go `strings.Contains`: does `needle` occur inside `hay`? -/
def containsSub (needle hay : List Char) : Bool :=
  startsWithList needle hay ||
    match hay with
    | [] => false
    | _ :: cs => containsSub needle cs

/-- Does `l` end with `suf`? -/
def endsWithList (suf l : List Char) : Bool :=
  startsWithList suf.reverse l.reverse

/-- Is this child an `a` element with an `href` attribute whose value
contains "#since()" (the since-link test of parser.go)? -/
def isSinceLink : HNode → Bool
  | .elem tag attrs _ =>
    tag = "a" && attrs.any (fun a => a.1 = "href" && containsSub "#since()".data a.2.data)
  | .text _ => false

/-- Model of Go `strings.TrimSpace` (ASCII whitespace; the inputs at stake
are ASCII). -/
def trimSpaceGo (l : List Char) : List Char :=
  ((l.dropWhile Char.isWhitespace).reverse.dropWhile Char.isWhitespace).reverse

/-- Model of Go `strings.Trim(s, cut)` for a one-character cutset: remove
every leading and trailing occurrence. -/
def trimCharBoth (cut : Char) (l : List Char) : List Char :=
  ((l.dropWhile (· = cut)).reverse.dropWhile (· = cut)).reverse

/-- Model of Go `strings.TrimSuffix`: drop one occurrence of the suffix if
present. -/
def trimSuffixList (suf l : List Char) : List Char :=
  if endsWithList suf l then l.take (l.length - suf.length) else l

/-- The version-text post-processing of `extractDeprecatedSinceFromNode`
(parser.go): `strings.Trim(strings.Split(text, "=")[1], "\"")`, then
`strings.TrimSuffix(..., "\")")`, then `strings.TrimSuffix(..., "\",")`. -/
def parseVersionText (text : List Char) : List Char :=
  let afterEq := (splitOnChar '=' text).getD 1 []
  trimSuffixList ['"', ','] (trimSuffixList ['"', ')'] (trimCharBoth '"' afterEq))

/-- The child loop of `extractDeprecatedSinceFromNode` (parser.go): walk the
direct children of the annotations span; an `a` element whose `href`
contains "#since()" sets a flag, and once the flag is set the first text
node whose trimmed content contains '=' yields the version.  Returns "" when
no qualifying pair exists. -/
def scanSinceChildren (foundSince : Bool) : List HNode → String
  | [] => ""
  | c :: cs =>
    let f := foundSince || isSinceLink c
    match c with
    | .text s =>
      let t := trimSpaceGo s.data
      if f && t.contains '=' then String.mk (parseVersionText t)
      else scanSinceChildren f cs
    | .elem _ _ _ => scanSinceChildren f cs

/-- Children accessor (`FirstChild`/`NextSibling` chain; a text node has no
children). -/
def HNode.kids : HNode → List HNode
  | .text _ => []
  | .elem _ _ cs => cs

/-- Is this child a text node whose trimmed content contains '=' — the only
kind of child that can yield a version once the since flag is set? -/
def textWithEq : HNode → Bool
  | .text s => (trimSpaceGo s.data).contains '='
  | .elem _ _ _ => false

/-- The "no qualifying since/text pair" shape of an annotations span's
direct children: after the first since-link (if any) no text node with an
'=' follows, so the child scan can never produce a version. -/
def noSincePair : List HNode → Bool
  | [] => true
  | c :: cs =>
    if isSinceLink c then cs.all (fun d => !textWithEq d)
    else noSincePair cs

/-- `extractDeprecatedSinceFromNode` (parser.go): locate the annotations
span inside the section node, then scan its direct children. -/
def extractDeprecatedSinceFromNode (n : HNode) : String :=
  match findAnnotationsSpan n with
  | none => ""
  | some span => scanSinceChildren false span.kids

/-- Go `elementID[strings.LastIndex(elementID, ".")+1:]`: the part after the
last '.', or the whole string when there is no '.'. -/
def afterLastDot (l : List Char) : List Char :=
  l.foldl (fun acc c => if c = '.' then [] else acc ++ [c]) []

/-- `extractDeprecatedSince` (parser.go): derive the local name (last
dot-separated segment of the fully qualified symbol name), find the matching
section node in the parsed page, and extract the deprecated-since value from
it; "" when the section is absent. -/
def extractDeprecatedSince (doc : HNode) (elementID : String) : String :=
  let itemName := String.mk (afterLastDot elementID.data)
  match findElementNodeByID itemName doc with
  | none => ""
  | some node => extractDeprecatedSinceFromNode node

/-- `DeprecationResult` (parser.go): the per-symbol record.  Go's `error`
field is `Option String` (`none` = nil). -/
structure DeprecationResult where
  item : String
  version : String
  error : Option String
deriving DecidableEq, Repr

/-- `processDeprecatedItem` (parser.go): fetch the detail page, convert a
fetch failure into a record carrying that failure, map an empty extraction
result to the sentinel version "Unknown".  The fetch capability returns the
parsed page (see the section comment). -/
def processDeprecatedItem (fetch : String → Except String HNode)
    (link item : String) : DeprecationResult :=
  match fetch link with
  | .error e => { item := item, version := "", error := some e }
  | .ok doc =>
    let version := extractDeprecatedSince doc item
    if version = "" then { item := item, version := "Unknown", error := none }
    else { item := item, version := version, error := none }


/-!
### Index extractor and concurrent dispatcher (`ParseDeprecations`, parser.go)

`ParseDeprecations` finds summary rows with the regular expression
`<div class="col-summary-item-name[^"]*"><a href="([^"]+)">([^<]*)(?:<wbr>)?([^<]+)</a></div>`
(captures: detail link, label before a soft wrap, label after it) and fans
the matches out over a fixed worker pool.  The scanner below implements the
semantics of Go's `FindAllStringSubmatch` specialised to this pattern:
leftmost non-overlapping matches with the usual greedy preference.  Since
the character classes `[^"]`/`[^<]` cannot cross their terminator and every
literal piece starts with that terminator, the specialised matcher is
deterministic: each class takes its maximal run and the only choice point,
the optional `<wbr>`, succeeds exactly when taking it lets the rest of the
pattern match.
-/

/-- `<div class="col-summary-item-name` — the literal head of the pattern. -/
def rowStartLit : List Char := "<div class=\"col-summary-item-name".data

/-- `"><a href="` — between the class attribute and the link capture. -/
def rowHrefLit : List Char := "\"><a href=\"".data

/-- `">` — closes the link capture. -/
def rowCloseQuoteLit : List Char := "\">".data

/-- `<wbr>` — the optional soft-wrap marker inside the label. -/
def wbrLit : List Char := "<wbr>".data

/-- `</a></div>` — the literal tail of the pattern. -/
def rowEndLit : List Char := "</a></div>".data

/-- Bool test for "not this character" (the classes `[^"]` and `[^<]`). -/
def notChar (x : Char) : Char → Bool := fun c => c != x

/-- Drop an exact literal from the front of the input, or fail. -/
def dropLit : List Char → List Char → Option (List Char)
  | [], l => some l
  | _ :: _, [] => none
  | p :: ps, c :: cs => if p = c then dropLit ps cs else none

/-- One attempted match of the summary-row pattern at the current position.
Returns the captures Go keeps — `match[1]` (the link) and the reassembled
label `match[2] + match[3]` — together with the input following the match. -/
def matchRowAt (l : List Char) : Option ((List Char × List Char) × List Char) :=
  match dropLit rowStartLit l with
  | none => none
  | some r1 =>
    match dropLit rowHrefLit (r1.dropWhile (notChar '"')) with
    | none => none
    | some r3 =>
      if r3.takeWhile (notChar '"') = [] then none
      else
        match dropLit rowCloseQuoteLit (r3.dropWhile (notChar '"')) with
        | none => none
        | some r5 =>
          match dropLit wbrLit (r5.dropWhile (notChar '<')) with
          | some r7 =>
            if r7.takeWhile (notChar '<') = [] then none
            else
              match dropLit rowEndLit (r7.dropWhile (notChar '<')) with
              | none => none
              | some r9 =>
                some ((r3.takeWhile (notChar '"'),
                  r5.takeWhile (notChar '<') ++ r7.takeWhile (notChar '<')), r9)
          | none =>
            if r5.takeWhile (notChar '<') = [] then none
            else
              match dropLit rowEndLit (r5.dropWhile (notChar '<')) with
              | none => none
              | some r9 => some ((r3.takeWhile (notChar '"'), r5.takeWhile (notChar '<')), r9)

/-- Fuelled scan for all leftmost non-overlapping matches: try a match at
every position, and continue after a match.  The fuel (an upper bound on the
remaining length) keeps the recursion structural. -/
def scanRowsF : Nat → List Char → List (List Char × List Char)
  | 0, _ => []
  | _, [] => []
  | fuel + 1, c :: cs =>
    match matchRowAt (c :: cs) with
    | some (e, rest) => e :: scanRowsF fuel rest
    | none => scanRowsF fuel cs

/-- `FindAllStringSubmatch` of the summary-row pattern: the index-extractor
half of `ParseDeprecations`, as (link, label) pairs in document order. -/
def scanRows (l : List Char) : List (List Char × List Char) :=
  scanRowsF l.length l

/-- The slice `matches[start:end]` processed by worker `i` of
`ParseDeprecations`: `start = i*itemsPerWorker`,
`end = min(start+itemsPerWorker, len)`. -/
def workerChunk (ipw i : Nat) (entries : List α) : List α :=
  (entries.drop (i * ipw)).take ipw

/-- The dispatcher of `ParseDeprecations`: partition the matches into
contiguous chunks with `itemsPerWorker = ⌈n / numWorkers⌉`, one chunk per
worker, each worker processing its chunk sequentially, all records going to
one result channel.  The channel's arrival order is nondeterministic; this
model lists the records worker by worker, and the theorems below quantify
over every permutation of it. -/
def dispatchResults (proc : α → β) (entries : List α) (numWorkers : Nat) :
    List β :=
  let ipw := (entries.length + numWorkers - 1) / numWorkers
  ((List.range numWorkers).map (fun i => (workerChunk ipw i entries).map proc)).flatten

/-- `ParseDeprecations` (parser.go): extract the summary rows, then fan out
`processDeprecatedItem` over 10 workers (the earlier revision used 8; the
dispatcher is parameterised and the theorems cover both). -/
def ParseDeprecations (fetch : String → Except String HNode)
    (listHtml : List Char) : List DeprecationResult :=
  dispatchResults
    (fun m => processDeprecatedItem fetch (String.mk m.1) (String.mk m.2))
    (scanRows listHtml) 10

/-- A well-formed summary row for the index-extractor specification: the
class-attribute remainder, the link, and a label in up to two fragments
around an optional `<wbr>`. -/
structure SummaryRow where
  cls : List Char
  href : List Char
  pre : List Char
  wbr : Bool
  post : List Char

/-- Well-formedness: the captured pieces stay inside their character
classes (`[^"]` and `[^<]`) and the required captures are non-empty. -/
def SummaryRow.wf (r : SummaryRow) : Prop :=
  (∀ c ∈ r.cls, c ≠ '"') ∧ r.href ≠ [] ∧ (∀ c ∈ r.href, c ≠ '"') ∧
    (∀ c ∈ r.pre, c ≠ '<') ∧ r.post ≠ [] ∧ (∀ c ∈ r.post, c ≠ '<')

instance (r : SummaryRow) : Decidable r.wf := by
  unfold SummaryRow.wf; infer_instance

/-- The markup of one well-formed summary row. -/
def renderRow (r : SummaryRow) : List Char :=
  rowStartLit ++ r.cls ++ rowHrefLit ++ r.href ++ rowCloseQuoteLit ++
    r.pre ++ (if r.wbr then wbrLit else []) ++ r.post ++ rowEndLit

/-- Index markup containing exactly the given summary rows, each followed by
separator text: `sep0 row1 sep1 row2 sep2 ...`. -/
def renderDoc (sep0 : List Char) (pieces : List (SummaryRow × List Char)) :
    List Char :=
  sep0 ++ (pieces.map (fun p => renderRow p.1 ++ p.2)).flatten

/-!
### Report generation (`generateReport`, main.go)

The embedding follows the later `main.go` revision, which sorts class groups
by name (the `cmd/main.go` snapshot lacks that sort).  Go map iteration
order is unspecified; the model iterates version and class buckets in first
insertion order — every property proved below (sortedness of the output,
the position of the "Unknown Version" group, bucket contents) is invariant
under that choice.
-/

namespace Templates

/-- `DeprecatedItem` (templates). -/
structure DeprecatedItem where
  fullPath : String
  name : String
deriving DecidableEq, Repr

/-- `ClassGroup` (templates).  (Namespaced: Mathlib already has a
`ClassGroup`.) -/
structure ClassGroup where
  className : String
  items : List DeprecatedItem
deriving DecidableEq, Repr

/-- `VersionGroup` (templates). -/
structure VersionGroup where
  version : String
  classes : List ClassGroup
deriving DecidableEq, Repr

end Templates

/-- Join with '.' (for `strings.Join(parts, ".")`). -/
def joinWithDot : List (List Char) → List Char
  | [] => []
  | [x] => x
  | x :: xs => x ++ '.' :: joinWithDot xs

/-- `getClassPath` (main.go): everything before the last '.'; the whole
path when it has no '.'. -/
def getClassPath (fullPath : String) : String :=
  let parts := splitOnChar '.' fullPath.data
  if parts.length > 1 then String.mk (joinWithDot (parts.take (parts.length - 1)))
  else fullPath

/-- Append an item to its class bucket (`versionGroups[v][class] = append(...)`). -/
def addItemAt (key : String) (item : Templates.DeprecatedItem) :
    List (String × List Templates.DeprecatedItem) →
      List (String × List Templates.DeprecatedItem)
  | [] => [(key, [item])]
  | (k, items) :: rest =>
    if k = key then (k, items ++ [item]) :: rest
    else (k, items) :: addItemAt key item rest

/-- Append an item to its version/class bucket. -/
def addToVersionGroups (version className : String)
    (item : Templates.DeprecatedItem) :
    List (String × List (String × List Templates.DeprecatedItem)) →
      List (String × List (String × List Templates.DeprecatedItem))
  | [] => [(version, [(className, [item])])]
  | (v, classes) :: rest =>
    if v = version then (v, addItemAt className item classes) :: rest
    else (v, classes) :: addToVersionGroups version className item rest

/-- The grouping loop of `generateReport`: error records go to
`unknownVersionItems` in input order, the rest into the version/class
buckets. -/
def buildGroups (results : List DeprecationResult) :
    List (String × List (String × List Templates.DeprecatedItem)) ×
      List Templates.DeprecatedItem :=
  results.foldl
    (fun acc r =>
      match r.error with
      | some _ => (acc.1, acc.2 ++ [⟨r.item, r.item⟩])
      | none =>
        (addToVersionGroups r.version (getClassPath r.item) ⟨r.item, r.item⟩ acc.1,
          acc.2))
    ([], [])

/-- The items of the "Unknown Version" bucket for a result list. -/
def unknownItemsOf (results : List DeprecationResult) :
    List Templates.DeprecatedItem :=
  (buildGroups results).2

/-- The order `sort.Slice(versions, CompareVersions)` establishes:
`a` may stay before `b` iff `b` does not compare newer than `a`. -/
def versionBefore (a b : String) : Prop := CompareVersions b a = false

instance : DecidableRel versionBefore := fun a b =>
  inferInstanceAs (Decidable (CompareVersions b a = false))

/-- The order `sort.Slice(classGroups, ClassName <)` establishes. -/
def classBefore (a b : Templates.ClassGroup) : Prop :=
  a.className ≤ b.className

instance : DecidableRel classBefore := fun a b =>
  inferInstanceAs (Decidable (a.className ≤ b.className))

/-- `generateReport` (main.go), up to the hand-off to the rendering layer:
group the results, sort the versions descending with `CompareVersions`,
sort each version's class groups by class name, and append the
"Unknown Version" group when any record carried an error.  (`sort.Slice` is
modelled by insertion sort: both produce a permutation that is sorted for
the comparator, which is all the code relies on.) -/
def mkKnownGroup (results : List DeprecationResult) (v : String) :
    Templates.VersionGroup :=
  Templates.VersionGroup.mk v
    (List.insertionSort classBefore
      (((List.lookup v (buildGroups results).1).getD []).map
        (fun p => Templates.ClassGroup.mk p.1 p.2)))

def generateReportGroups (results : List DeprecationResult) :
    List Templates.VersionGroup :=
  (List.insertionSort versionBefore ((buildGroups results).1.map (·.1))).map
      (mkKnownGroup results) ++
    (if unknownItemsOf results = [] then []
     else [⟨"Unknown Version", [⟨"Unknown Class", unknownItemsOf results⟩]⟩])

/-!
### Concrete pages for the end-to-end scenario
-/

/-- The scenario's index markup:
one summary row linking `a/B.html#m()` with label `B.m`. -/
def c3IndexMarkup : List Char :=
  "<div class=\"col-summary-item-name\"><a href=\"a/B.html#m()\">B.m</a></div>".data

/-- The scenario's detail page, parsed: a `section` whose id is the local
name "m", holding an annotations span whose direct children are the
`@`-sign text, a since-link, and the textual rendering
`(since="1.20.1")`. -/
def c3Doc : HNode :=
  .elem "html" []
    [.elem "body" []
      [.elem "section" [("id", "m")]
        [.elem "h3" [] [.text "m"],
         .elem "div" [("class", "member-signature")]
           [.elem "span" [("class", "annotations")]
             [.text "@",
              .elem "a" [("href", "Deprecated.html#since()")] [.text "Deprecated"],
              .text "(since=\"1.20.1\")"]]]]]

/-- Did the fetch for this (link, label) match fail?  Used to count the
failing entries of a batch. -/
def fetchFailed (fetch : String → Except String HNode)
    (m : List Char × List Char) : Bool :=
  match fetch (String.mk m.1) with
  | .error _ => true
  | .ok _ => false

/-!
## Theorems
-/

theorem comparePartsGo_eq_keyGT :
    ∀ x y : List (List Char),
      comparePartsGo x y = keyGT (x.map goAtoi) (y.map goAtoi) := by
  intro x
  induction x with
  | nil => intro y; cases y <;> simp [comparePartsGo, keyGT]
  | cons a as ih =>
    intro y
    cases y with
    | nil => simp [comparePartsGo, keyGT]
    | cons b bs => simp [comparePartsGo, keyGT, ih bs]

theorem CompareVersions_eq_keyGT (a b : String) :
    CompareVersions a b = keyGT (versionKey a) (versionKey b) := by
  simp [CompareVersions, versionKey, comparePartsGo_eq_keyGT]

theorem keyGT_asymm : ∀ x y : List Int, keyGT x y = true → keyGT y x = false := by
  intro x
  induction x with
  | nil =>
    intro y h
    cases y with
    | nil => simp [keyGT] at h
    | cons b bs => simp [keyGT] at h
  | cons a as ih =>
    intro y h
    cases y with
    | nil => simp [keyGT]
    | cons b bs =>
      simp only [keyGT] at h ⊢
      by_cases hab : a = b
      · subst hab
        simp only [if_pos rfl] at h ⊢
        exact ih bs h
      · have hba : ¬ b = a := fun hh => hab hh.symm
        simp only [if_neg hab] at h
        simp only [if_neg hba]
        have hgt : a > b := of_decide_eq_true h
        simp; omega

theorem keyGT_trichotomy :
    ∀ x y : List Int, keyGT x y = true ∨ keyGT y x = true ∨ x = y := by
  intro x
  induction x with
  | nil =>
    intro y
    cases y with
    | nil => right; right; rfl
    | cons b bs => right; left; simp [keyGT]
  | cons a as ih =>
    intro y
    cases y with
    | nil => left; simp [keyGT]
    | cons b bs =>
      by_cases hab : a = b
      · subst hab
        rcases ih bs with h | h | h
        · left; simpa [keyGT] using h
        · right; left; simpa [keyGT] using h
        · right; right; rw [h]
      · rcases lt_trichotomy a b with h | h | h
        · right; left
          have hba : ¬ b = a := fun hh => hab hh.symm
          simp [keyGT, if_neg hba]; omega
        · exact absurd h hab
        · left; simp [keyGT, if_neg hab]; omega

theorem keyGT_trans :
    ∀ x y z : List Int, keyGT x y = true → keyGT y z = true → keyGT x z = true := by
  intro x
  induction x with
  | nil =>
    intro y z hxy _
    cases y <;> simp [keyGT] at hxy
  | cons a as ih =>
    intro y z hxy hyz
    cases y with
    | nil => cases z <;> simp [keyGT] at hyz
    | cons b bs =>
      cases z with
      | nil => simp [keyGT]
      | cons c cs =>
        simp only [keyGT] at hxy hyz ⊢
        by_cases hab : a = b <;> by_cases hbc : b = c
        · subst hab; subst hbc
          simp only [if_pos rfl] at hxy hyz ⊢
          exact ih bs cs hxy hyz
        · subst hab
          simp only [if_pos rfl] at hxy
          simp only [if_neg hbc] at hyz ⊢
          exact hyz
        · subst hbc
          simp only [if_pos rfl] at hyz
          simp only [if_neg hab] at hxy ⊢
          exact hxy
        · simp only [if_neg hab] at hxy
          simp only [if_neg hbc] at hyz
          have h1 : a > b := by simpa using hxy
          have h2 : b > c := by simpa using hyz
          have hac : ¬ a = c := by omega
          simp [if_neg hac]; omega

theorem CompareVersions_trans (a b c : String)
    (h1 : CompareVersions a b = true) (h2 : CompareVersions b c = true) :
    CompareVersions a c = true := by
  rw [CompareVersions_eq_keyGT] at h1 h2 ⊢
  exact keyGT_trans _ _ _ h1 h2

/-- **C6** — Version comparison (`CompareVersions`) is segment-wise numeric,
not lexical: "1.21.3" > "1.21.10" is false and "1.3" > "1.21" is false; and
the induced order is transitive: whenever `a` compares newer than `b` and `b`
compares newer than `c`, `a` compares newer than `c`. -/
theorem c6_compareVersions_numeric_transitive :
    CompareVersions "1.21.3" "1.21.10" = false ∧
    CompareVersions "1.3" "1.21" = false ∧
    (∀ a b c : String, CompareVersions a b = true → CompareVersions b c = true →
      CompareVersions a c = true) := by
  refine ⟨by decide, by decide, ?_⟩
  exact CompareVersions_trans

/-- Witness for C6: transitivity applied at the concrete chain
"1.21.3" > "1.20.1" > "1.19". -/
theorem c6_compareVersions_numeric_transitive_witness :
    CompareVersions "1.21.3" "1.20.1" = true ∧
    CompareVersions "1.20.1" "1.19" = true ∧
    CompareVersions "1.21.3" "1.19" = true :=
  ⟨by decide, by decide,
    c6_compareVersions_numeric_transitive.2.2 "1.21.3" "1.20.1" "1.19"
      (by decide) (by decide)⟩

/-- **C8** — For a loaded, non-empty snapshot whose head entry carries the
newest `lastUpdated` timestamp, the pipeline short-circuits if and only if
that timestamp is strictly within the 24-hour max age (exclusive boundary):
an age of 25 hours is rejected, 1 hour is accepted, and exactly 24 hours is
rejected. -/
theorem c8_cache_freshness_boundary (now : Int) (e : CacheEntry)
    (rest : List CacheEntry)
    (_hnewest : ∀ e' ∈ rest, e'.lastUpdated ≤ e.lastUpdated) :
    (usesCacheShortCircuit true (.ok ⟨e :: rest⟩) now = true ↔
      now - e.lastUpdated < hoursNs 24) ∧
    isCacheValid now (now - hoursNs 25) (hoursNs 24) = false ∧
    isCacheValid now (now - hoursNs 1) (hoursNs 24) = true ∧
    isCacheValid now (now - hoursNs 24) (hoursNs 24) = false := by
  refine ⟨?_, ?_, ?_, ?_⟩
  · simp [usesCacheShortCircuit, isCacheValid]
  · simp [isCacheValid, hoursNs]
  · simp [isCacheValid, hoursNs]
  · simp [isCacheValid, hoursNs]

/-- Witness for C8: a one-hour-old single-entry snapshot is accepted. -/
theorem c8_cache_freshness_boundary_witness :
    usesCacheShortCircuit true
      (.ok ⟨[⟨"1.21.3", ["a.B"], hoursNs 99⟩]⟩) (hoursNs 100) = true := by
  have h := c8_cache_freshness_boundary (hoursNs 100)
    ⟨"1.21.3", ["a.B"], hoursNs 99⟩ [] (by intro e' he'; cases he')
  exact h.1.mpr (by simp [hoursNs])

/-- **C9** — `LoadCache` on a missing file returns the empty snapshot and no
error; any other I/O failure, and any JSON decode failure, is returned as a
hard error with no snapshot. -/
theorem c9_loadCache_soft_missing_hard_otherwise
    (unmarshal : String → Except String Cache) :
    LoadCache .notExist unmarshal = .ok ⟨[]⟩ ∧
    (∀ msg, LoadCache (.otherErr msg) unmarshal = .error msg) ∧
    (∀ data msg, unmarshal data = .error msg →
      LoadCache (.ok data) unmarshal = .error msg) := by
  refine ⟨rfl, fun msg => rfl, fun data msg h => ?_⟩
  simp [LoadCache, h]

/-- Witness for C9: with a decoder that rejects everything, a present but
undecodable file is a hard error, while a missing file still loads softly. -/
theorem c9_loadCache_soft_missing_hard_otherwise_witness :
    LoadCache .notExist (fun _ => .error "bad json") = .ok ⟨[]⟩ ∧
    LoadCache (.ok "garbage") (fun _ => .error "bad json") = .error "bad json" := by
  have h := c9_loadCache_soft_missing_hard_otherwise (fun _ => .error "bad json")
  exact ⟨h.1, h.2.2 "garbage" "bad json" rfl⟩

/-- **C3** — End-to-end scenario: the index markup
`<div class="col-summary-item-name"><a href="a/B.html#m()">B.m</a></div>`
yields exactly the entry (detail path `a/B.html#m()`, label `B.m`); and on a
detail page containing a section whose id equals the local name derived from
"B.m" (the implementation keys on the part after the last '.', here "m")
with an annotations span whose direct children hold a since-link followed by
the text node `(since="1.20.1")`, the detail extractor returns "1.20.1":
the substring after '=', with surrounding quotes and the trailing `")`
artifact stripped. -/
theorem c3_scenario_extracts_version :
    scanRows c3IndexMarkup = [("a/B.html#m()".data, "B.m".data)] ∧
    extractDeprecatedSince c3Doc "B.m" = "1.20.1" :=
  ⟨by decide, by decide⟩

theorem scanSinceChildren_no_textWithEq :
    ∀ (cs : List HNode) (f : Bool), (∀ d ∈ cs, textWithEq d = false) →
      scanSinceChildren f cs = "" := by
  intro cs
  induction cs with
  | nil => intro f _; rfl
  | cons c cs ih =>
    intro f h
    have htail : ∀ d ∈ cs, textWithEq d = false :=
      fun d hd => h d (List.mem_cons_of_mem _ hd)
    cases c with
    | text s =>
      have ht : (trimSpaceGo s.data).contains '=' = false := by
        have := h (.text s) (by simp)
        simpa [textWithEq] using this
      simp only [scanSinceChildren, ht, Bool.and_false, Bool.false_eq_true,
        if_false]
      exact ih _ htail
    | elem tag attrs kids =>
      simp only [scanSinceChildren]
      exact ih _ htail

theorem scanSinceChildren_noSincePair :
    ∀ cs : List HNode, noSincePair cs = true → scanSinceChildren false cs = "" := by
  intro cs
  induction cs with
  | nil => intro _; rfl
  | cons c cs ih =>
    intro h
    simp only [noSincePair] at h
    cases hsl : isSinceLink c with
    | true =>
      rw [hsl] at h
      simp only [if_true, List.all_eq_true, Bool.not_eq_true'] at h
      cases c with
      | text s => simp [isSinceLink] at hsl
      | elem tag attrs kids =>
        simp only [scanSinceChildren, hsl, Bool.or_true]
        exact scanSinceChildren_no_textWithEq cs true h
    | false =>
      rw [hsl] at h
      simp only [Bool.false_eq_true, if_false] at h
      cases c with
      | text s =>
        simp only [scanSinceChildren, hsl, Bool.or_false, Bool.false_and,
          Bool.false_eq_true, if_false]
        exact ih h
      | elem tag attrs kids =>
        simp only [scanSinceChildren, hsl, Bool.or_false]
        exact ih h

/-- **C5** — When no section node matching the symbol's local name exists,
extraction yields ""; when no annotations span exists under the section
node, extraction yields ""; when the annotations span exists but holds no
qualifying since-link/text pair among its direct children (no text node
containing '=' follows a since-link), extraction also yields ""; and
whenever extraction yields "" on a successfully fetched page, the record is
(item, "Unknown", no error). -/
theorem c5_absent_annotations_means_unknown :
    (∀ (doc : HNode) (elementID : String),
      findElementNodeByID (String.mk (afterLastDot elementID.data)) doc = none →
        extractDeprecatedSince doc elementID = "") ∧
    (∀ n : HNode, findAnnotationsSpan n = none →
        extractDeprecatedSinceFromNode n = "") ∧
    (∀ n span : HNode, findAnnotationsSpan n = some span →
      noSincePair span.kids = true →
        extractDeprecatedSinceFromNode n = "") ∧
    (∀ (fetch : String → Except String HNode) (link item : String) (doc : HNode),
      fetch link = .ok doc → extractDeprecatedSince doc item = "" →
        processDeprecatedItem fetch link item =
          { item := item, version := "Unknown", error := none }) := by
  refine ⟨?_, ?_, ?_, ?_⟩
  · intro doc elementID h
    simp [extractDeprecatedSince, h]
  · intro n h
    simp [extractDeprecatedSinceFromNode, h]
  · intro n span h hpair
    simp only [extractDeprecatedSinceFromNode, h]
    exact scanSinceChildren_noSincePair span.kids hpair
  · intro fetch link item doc hf hv
    simp [processDeprecatedItem, hf, hv]

/-- Witness for C5: a page with no matching section produces the "Unknown"
record with no error; and a section whose annotations span has a since-link
followed only by a text node without '=' extracts nothing. -/
theorem c5_absent_annotations_means_unknown_witness :
    processDeprecatedItem (fun _ => .ok (.elem "p" [] [.text "gone"])) "a/B.html" "B.m" =
      { item := "B.m", version := "Unknown", error := none } ∧
    extractDeprecatedSinceFromNode
      (.elem "section" [("id", "m")]
        [.elem "span" [("class", "annotations")]
          [.elem "a" [("href", "Deprecated.html#since()")] [.text "Deprecated"],
           .text "no assignment here"]]) = "" :=
  ⟨c5_absent_annotations_means_unknown.2.2.2 (fun _ => .ok (.elem "p" [] [.text "gone"]))
      "a/B.html" "B.m" (.elem "p" [] [.text "gone"]) rfl
      (c5_absent_annotations_means_unknown.1 (.elem "p" [] [.text "gone"]) "B.m" rfl),
    c5_absent_annotations_means_unknown.2.2.1
      (.elem "section" [("id", "m")]
        [.elem "span" [("class", "annotations")]
          [.elem "a" [("href", "Deprecated.html#since()")] [.text "Deprecated"],
           .text "no assignment here"]])
      (.elem "span" [("class", "annotations")]
        [.elem "a" [("href", "Deprecated.html#since()")] [.text "Deprecated"],
         .text "no assignment here"])
      rfl (by decide)⟩

/-- **C10** — Every record `processDeprecatedItem` produces has a non-nil
error exactly when its version is the empty string: it never carries both a
version (including the "Unknown" sentinel) and an error, and never carries
neither. -/
theorem c10_error_iff_version_empty (fetch : String → Except String HNode)
    (link item : String) :
    (processDeprecatedItem fetch link item).error.isSome = true ↔
      (processDeprecatedItem fetch link item).version = "" := by
  cases hf : fetch link with
  | error e => simp [processDeprecatedItem, hf]
  | ok doc =>
    by_cases hv : extractDeprecatedSince doc item = "" <;>
      simp [processDeprecatedItem, hf, hv]

theorem take_add_split (l : List α) (m n : Nat) :
    l.take (m + n) = l.take m ++ (l.drop m).take n := by
  induction m generalizing l with
  | zero => simp
  | succ m ih =>
    cases l with
    | nil => simp
    | cons x xs => simp [Nat.succ_add, ih]

theorem ceil_div_mul_ge (n w : Nat) (hw : 1 ≤ w) : n ≤ ((n + w - 1) / w) * w := by
  rcases Nat.eq_zero_or_pos n with hn | hn
  · simp [hn]
  · by_contra hcon
    push_neg at hcon
    have hle : ((n + w - 1) / w) * w + 1 ≤ n := hcon
    have h1 : ((n + w - 1) / w + 1) * w ≤ n + w - 1 := by
      calc ((n + w - 1) / w + 1) * w = ((n + w - 1) / w) * w + w := by ring
        _ ≤ (n - 1) + w := by omega
        _ = n + w - 1 := by omega
    have h2 : (n + w - 1) / w + 1 ≤ (n + w - 1) / w :=
      (Nat.le_div_iff_mul_le (by omega)).mpr h1
    omega

theorem chunks_flatten (xs : List α) (ipw : Nat) :
    ∀ k, ((List.range k).map (fun i => workerChunk ipw i xs)).flatten
      = xs.take (k * ipw) := by
  intro k
  induction k with
  | zero => simp
  | succ k ih =>
    rw [List.range_succ, List.map_append, List.flatten_append]
    simp only [List.map_cons, List.map_nil, List.flatten_cons, List.flatten_nil,
      List.append_nil]
    rw [ih, Nat.succ_mul, take_add_split]
    rfl

/-- The dispatcher produces exactly the sequential map over the matches:
the contiguous chunks with ceiling division cover the input once each. -/
theorem dispatchResults_eq_map (proc : α → β) (entries : List α) (w : Nat)
    (hw : 1 ≤ w) : dispatchResults proc entries w = entries.map proc := by
  show ((List.range w).map
      (fun i => (workerChunk ((entries.length + w - 1) / w) i entries).map proc)).flatten
    = entries.map proc
  have hcomp :
      (fun i => (workerChunk ((entries.length + w - 1) / w) i entries).map proc)
        = (List.map proc) ∘ (fun i => workerChunk ((entries.length + w - 1) / w) i entries) :=
    rfl
  rw [hcomp, ← List.map_map, ← List.map_flatten, chunks_flatten,
    List.take_of_length_le
      (by rw [Nat.mul_comm]; exact ceil_div_mul_ge entries.length w hw)]

/-- **C1** — For every list of index entries and any per-entry fetch
outcomes, the dispatcher returns exactly one record per input entry: any
arrival order of the result channel is a permutation of the per-entry
records, so the output cardinality equals the input cardinality with no
drops and no duplicates, for worker count 8 or 10 alike. -/
theorem c1_dispatcher_exactly_one_record_per_entry
    (fetch : String → Except String HNode)
    (entries : List (List Char × List Char)) (w : Nat)
    (hw : w = 8 ∨ w = 10) (out : List DeprecationResult)
    (hout : out.Perm (dispatchResults
      (fun m => processDeprecatedItem fetch (String.mk m.1) (String.mk m.2))
      entries w)) :
    out.length = entries.length ∧
    out.Perm (entries.map
      (fun m => processDeprecatedItem fetch (String.mk m.1) (String.mk m.2))) := by
  have hw1 : 1 ≤ w := by rcases hw with h | h <;> omega
  rw [dispatchResults_eq_map _ _ _ hw1] at hout
  exact ⟨hout.length_eq.trans (by simp), hout⟩

/-- Witness for C1: three entries, every fetch failing, ten workers — the
dispatcher still emits three records. -/
theorem c1_dispatcher_exactly_one_record_per_entry_witness :
    (dispatchResults
      (fun m => processDeprecatedItem (fun _ => .error "down")
        (String.mk m.1) (String.mk m.2))
      [("a".data, "A".data), ("b".data, "B".data), ("c".data, "C".data)]
      10).length = 3 :=
  (c1_dispatcher_exactly_one_record_per_entry (fun _ => .error "down")
    [("a".data, "A".data), ("b".data, "B".data), ("c".data, "C".data)] 10
    (Or.inr rfl) _ (List.Perm.refl _)).1

/-- **C4** — A failing fetch never aborts the batch: the output still has
one record per entry, every entry whose fetch fails contributes a record
carrying exactly that failure, and the number of error-carrying records
equals the number of failing entries (so all other entries are still
attempted and recorded). -/
theorem c4_fetch_failures_recorded_batch_continues
    (fetch : String → Except String HNode)
    (entries : List (List Char × List Char)) (w : Nat) (hw : 1 ≤ w) :
    (dispatchResults
        (fun m => processDeprecatedItem fetch (String.mk m.1) (String.mk m.2))
        entries w).length = entries.length ∧
    (∀ m ∈ entries, ∀ msg, fetch (String.mk m.1) = .error msg →
      ({ item := String.mk m.2, version := "", error := some msg } : DeprecationResult)
        ∈ dispatchResults
            (fun m => processDeprecatedItem fetch (String.mk m.1) (String.mk m.2))
            entries w) ∧
    (dispatchResults
        (fun m => processDeprecatedItem fetch (String.mk m.1) (String.mk m.2))
        entries w).countP (fun r => r.error.isSome)
      = entries.countP (fetchFailed fetch) := by
  rw [dispatchResults_eq_map _ _ _ hw]
  refine ⟨by simp, ?_, ?_⟩
  · intro m hm msg hmsg
    have : processDeprecatedItem fetch (String.mk m.1) (String.mk m.2)
        = { item := String.mk m.2, version := "", error := some msg } := by
      simp [processDeprecatedItem, hmsg]
    exact this ▸ List.mem_map_of_mem _ hm
  · rw [List.countP_map]
    apply List.countP_congr
    intro m _
    simp only [Function.comp_apply]
    cases hf : fetch (String.mk m.1) with
    | error e => simp [processDeprecatedItem, hf, fetchFailed]
    | ok doc =>
      by_cases hv : extractDeprecatedSince doc (String.mk m.2) = "" <;>
        simp [processDeprecatedItem, hf, hv, fetchFailed]

/-- Witness for C4: five entries, exactly one transport failure — five
records, the failing entry's record carries the failure, and exactly one
record carries an error. -/
theorem c4_fetch_failures_recorded_batch_continues_witness :
    (dispatchResults
      (fun m => processDeprecatedItem
        (fun s => if s = "e3" then .error "boom" else .ok (.text "x"))
        (String.mk m.1) (String.mk m.2))
      [("e1".data, "I1".data), ("e2".data, "I2".data), ("e3".data, "I3".data),
        ("e4".data, "I4".data), ("e5".data, "I5".data)] 10).length = 5 ∧
    ({ item := "I3", version := "", error := some "boom" } : DeprecationResult)
      ∈ dispatchResults
          (fun m => processDeprecatedItem
            (fun s => if s = "e3" then .error "boom" else .ok (.text "x"))
            (String.mk m.1) (String.mk m.2))
          [("e1".data, "I1".data), ("e2".data, "I2".data), ("e3".data, "I3".data),
            ("e4".data, "I4".data), ("e5".data, "I5".data)] 10 ∧
    (dispatchResults
      (fun m => processDeprecatedItem
        (fun s => if s = "e3" then .error "boom" else .ok (.text "x"))
        (String.mk m.1) (String.mk m.2))
      [("e1".data, "I1".data), ("e2".data, "I2".data), ("e3".data, "I3".data),
        ("e4".data, "I4".data), ("e5".data, "I5".data)] 10).countP
        (fun r => r.error.isSome) = 1 := by
  have h := c4_fetch_failures_recorded_batch_continues
    (fun s => if s = "e3" then .error "boom" else .ok (.text "x"))
    [("e1".data, "I1".data), ("e2".data, "I2".data), ("e3".data, "I3".data),
      ("e4".data, "I4".data), ("e5".data, "I5".data)] 10 (by omega)
  refine ⟨h.1, ?_, h.2.2.trans (by decide)⟩
  exact h.2.1 ("e3".data, "I3".data) (by decide) "boom" rfl

theorem CompareVersions_asymm (a b : String) (h : CompareVersions a b = true) :
    CompareVersions b a = false := by
  rw [CompareVersions_eq_keyGT] at h ⊢
  exact keyGT_asymm _ _ h

theorem versionBefore_total (a b : String) :
    versionBefore a b ∨ versionBefore b a := by
  unfold versionBefore
  cases h : CompareVersions b a with
  | false => exact Or.inl rfl
  | true => exact Or.inr (CompareVersions_asymm b a h)

theorem versionBefore_trans (a b c : String) (h1 : versionBefore a b)
    (h2 : versionBefore b c) : versionBefore a c := by
  unfold versionBefore at h1 h2 ⊢
  rw [CompareVersions_eq_keyGT] at h1 h2 ⊢
  cases hca : keyGT (versionKey c) (versionKey a) with
  | false => rfl
  | true =>
    exfalso
    rcases keyGT_trichotomy (versionKey b) (versionKey a) with h | h | h
    · rw [h1] at h; exact Bool.noConfusion h
    · have hcb := keyGT_trans _ _ _ hca h
      rw [h2] at hcb; exact Bool.noConfusion hcb
    · rw [← h] at hca
      rw [h2] at hca; exact Bool.noConfusion hca

/-- **C7** — The report handed to the rendering layer is ordered by
descending version under the segment-numeric comparison (each later group's
version does not compare newer than an earlier one's, the "Unknown Version"
group excepted from the comparison), the "Unknown Version" group collecting
the error records is always the last group whenever it exists, and within
every version group the class groups are sorted by class name. -/
theorem c7_report_sorted_desc_unknown_last_classes_sorted
    (results : List DeprecationResult) :
    List.Pairwise
      (fun g h : Templates.VersionGroup =>
        h.version = "Unknown Version" ∨ CompareVersions h.version g.version = false)
      (generateReportGroups results) ∧
    (unknownItemsOf results ≠ [] →
      (generateReportGroups results).getLast? =
        some ⟨"Unknown Version", [⟨"Unknown Class", unknownItemsOf results⟩]⟩) ∧
    (∀ g ∈ generateReportGroups results,
      List.Pairwise (fun c d : Templates.ClassGroup => c.className ≤ d.className)
        g.classes) := by
  haveI : IsTotal String versionBefore := ⟨versionBefore_total⟩
  haveI : IsTrans String versionBefore := ⟨versionBefore_trans⟩
  haveI : IsTotal Templates.ClassGroup classBefore :=
    ⟨fun a b => le_total a.className b.className⟩
  haveI : IsTrans Templates.ClassGroup classBefore :=
    ⟨fun _ _ _ hab hbc => le_trans hab hbc⟩
  have hsorted : List.Sorted versionBefore
      (List.insertionSort versionBefore ((buildGroups results).1.map (·.1))) :=
    List.sorted_insertionSort versionBefore _
  refine ⟨?_, ?_, ?_⟩
  · unfold generateReportGroups
    rw [List.pairwise_append]
    refine ⟨?_, ?_, ?_⟩
    · rw [List.pairwise_map]
      exact hsorted.imp (fun {u v} huv => Or.inr huv)
    · split
      · exact List.Pairwise.nil
      · exact List.pairwise_singleton _ _
    · intro g hg u hu
      split at hu
      · exact absurd hu (List.not_mem_nil u)
      · rw [List.mem_singleton] at hu
        subst hu
        exact Or.inl rfl
  · intro hne
    unfold generateReportGroups
    rw [if_neg hne]
    exact List.getLast?_concat _
  · intro g hg
    unfold generateReportGroups at hg
    rcases List.mem_append.mp hg with hg | hg
    · rcases List.mem_map.mp hg with ⟨v, _, rfl⟩
      exact List.sorted_insertionSort classBefore _
    · split at hg
      · exact absurd hg (List.not_mem_nil g)
      · rw [List.mem_singleton] at hg
        subst hg
        exact List.pairwise_singleton _ _

/-- Witness for C7: with one versioned record and one failed record, the
"Unknown Version" group holding the failed item is the last group. -/
theorem c7_report_sorted_desc_unknown_last_classes_sorted_witness :
    (generateReportGroups
      [{ item := "a.X", version := "1.20", error := none },
       { item := "b.Y", version := "", error := some "err" }]).getLast? =
      some ⟨"Unknown Version",
        [⟨"Unknown Class",
          unknownItemsOf
            [{ item := "a.X", version := "1.20", error := none },
             { item := "b.Y", version := "", error := some "err" }]⟩]⟩ :=
  (c7_report_sorted_desc_unknown_last_classes_sorted
    [{ item := "a.X", version := "1.20", error := none },
     { item := "b.Y", version := "", error := some "err" }]).2.1 (by decide)

theorem notChar_eq_true {x c : Char} (h : c ≠ x) : notChar x c = true := by
  simp [notChar, h]

theorem dropLit_length :
    ∀ pat l r : List Char, dropLit pat l = some r → r.length + pat.length = l.length := by
  intro pat
  induction pat with
  | nil =>
    intro l r h
    simp only [dropLit, Option.some.injEq] at h
    subst h; simp
  | cons p ps ih =>
    intro l r h
    cases l with
    | nil => simp [dropLit] at h
    | cons c cs =>
      simp only [dropLit] at h
      split at h
      · have h2 := ih cs r h
        simp only [List.length_cons]
        omega
      · exact absurd h (by simp)

theorem dropLit_self_append (pat rest : List Char) :
    dropLit pat (pat ++ rest) = some rest := by
  induction pat with
  | nil => rfl
  | cons p ps ih => simp [dropLit, ih]

theorem takeWhile_notChar_append (x : Char) (a bs : List Char)
    (ha : ∀ c ∈ a, c ≠ x) :
    (a ++ x :: bs).takeWhile (notChar x) = a := by
  rw [List.takeWhile_append_of_pos (fun c hc => notChar_eq_true (ha c hc))]
  simp [List.takeWhile_cons, notChar]

theorem dropWhile_notChar_append (x : Char) (a bs : List Char)
    (ha : ∀ c ∈ a, c ≠ x) :
    (a ++ x :: bs).dropWhile (notChar x) = x :: bs := by
  rw [List.dropWhile_append_of_pos (fun c hc => notChar_eq_true (ha c hc))]
  simp [List.dropWhile_cons, notChar]

theorem matchRowAt_nil : matchRowAt [] = none := rfl

theorem matchRowAt_head_ne {c : Char} (cs : List Char) (hc : c ≠ '<') :
    matchRowAt (c :: cs) = none := by
  have hd : dropLit rowStartLit (c :: cs) = none := by
    have hrow : rowStartLit = '<' :: "div class=\"col-summary-item-name".data := rfl
    rw [hrow]
    simp only [dropLit]
    exact if_neg (fun h => hc h.symm)
  unfold matchRowAt
  rw [hd]

theorem matchRowAt_some_length {l : List Char} {e : List Char × List Char}
    {rest : List Char} (h : matchRowAt l = some (e, rest)) :
    rest.length < l.length := by
  have hdw : ∀ (p : Char → Bool) (x : List Char),
      (x.dropWhile p).length ≤ x.length :=
    fun p x => (List.dropWhile_suffix p).length_le
  unfold matchRowAt at h
  split at h
  · exact absurd h (by simp)
  · next r1 heq1 =>
    have hr1 : r1.length < l.length := by
      have ha := dropLit_length _ _ _ heq1
      have hb : 0 < rowStartLit.length := by decide
      omega
    split at h
    · exact absurd h (by simp)
    · next r3 heq2 =>
      have hr3 : r3.length ≤ r1.length := by
        have ha := dropLit_length _ _ _ heq2
        have hb := hdw (notChar '"') r1
        omega
      split at h
      · exact absurd h (by simp)
      · split at h
        · exact absurd h (by simp)
        · next r5 heq3 =>
          have hr5 : r5.length ≤ r3.length := by
            have ha := dropLit_length _ _ _ heq3
            have hb := hdw (notChar '"') r3
            omega
          split at h
          · next r7 heq4 =>
            have hr7 : r7.length ≤ r5.length := by
              have ha := dropLit_length _ _ _ heq4
              have hb := hdw (notChar '<') r5
              omega
            split at h
            · exact absurd h (by simp)
            · split at h
              · exact absurd h (by simp)
              · next r9 heq5 =>
                have hr9 : r9.length ≤ r7.length := by
                  have ha := dropLit_length _ _ _ heq5
                  have hb := hdw (notChar '<') r7
                  omega
                simp only [Option.some.injEq, Prod.mk.injEq] at h
                obtain ⟨-, rfl⟩ := h
                omega
          · split at h
            · exact absurd h (by simp)
            · split at h
              · exact absurd h (by simp)
              · next r9 heq5 =>
                have hr9 : r9.length ≤ r5.length := by
                  have ha := dropLit_length _ _ _ heq5
                  have hb := hdw (notChar '<') r5
                  omega
                simp only [Option.some.injEq, Prod.mk.injEq] at h
                obtain ⟨-, rfl⟩ := h
                omega

theorem scanRowsF_congr :
    ∀ (f1 f2 : Nat) (l : List Char), l.length ≤ f1 → l.length ≤ f2 →
      scanRowsF f1 l = scanRowsF f2 l := by
  intro f1
  induction f1 with
  | zero =>
    intro f2 l h1 _
    have : l = [] := List.eq_nil_of_length_eq_zero (Nat.le_zero.mp h1)
    subst this
    cases f2 <;> rfl
  | succ f1 ih =>
    intro f2 l h1 h2
    cases l with
    | nil => cases f2 <;> rfl
    | cons c cs =>
      cases f2 with
      | zero => simp at h2
      | succ f2' =>
        simp only [scanRowsF]
        cases hm : matchRowAt (c :: cs) with
        | none =>
          simp only [List.length_cons] at h1 h2
          exact ih f2' cs (by omega) (by omega)
        | some pr =>
          obtain ⟨e, rest⟩ := pr
          have hlt := matchRowAt_some_length hm
          simp only [List.length_cons] at h1 h2 hlt
          show e :: scanRowsF f1 rest = e :: scanRowsF f2' rest
          rw [ih f2' rest (by omega) (by omega)]

theorem scanRows_step_none {c : Char} {cs : List Char}
    (h : matchRowAt (c :: cs) = none) : scanRows (c :: cs) = scanRows cs := by
  unfold scanRows
  simp only [List.length_cons, scanRowsF, h]

theorem scanRows_step_some {l : List Char} {e : List Char × List Char}
    {rest : List Char} (h : matchRowAt l = some (e, rest)) :
    scanRows l = e :: scanRows rest := by
  cases l with
  | nil => rw [matchRowAt_nil] at h; exact absurd h (by simp)
  | cons c cs =>
    unfold scanRows
    simp only [List.length_cons, scanRowsF, h]
    have hlt := matchRowAt_some_length h
    simp only [List.length_cons] at hlt
    rw [scanRowsF_congr cs.length rest.length rest (by omega) (le_refl _)]

theorem scanRows_sep_skip (sep rest : List Char) (hsep : ∀ c ∈ sep, c ≠ '<') :
    scanRows (sep ++ rest) = scanRows rest := by
  induction sep with
  | nil => rfl
  | cons c cs ih =>
    have hc : c ≠ '<' := hsep c (by simp)
    rw [List.cons_append, scanRows_step_none (matchRowAt_head_ne _ hc)]
    exact ih (fun x hx => hsep x (List.mem_cons_of_mem c hx))

theorem matchRowAt_renderRow (r : SummaryRow) (rest : List Char) (hwf : r.wf) :
    matchRowAt (renderRow r ++ rest) = some ((r.href, r.pre ++ r.post), rest) := by
  obtain ⟨hcls, hhrefne, hhref, hpre, hpostne, hpost⟩ := hwf
  cases hwbr : r.wbr with
  | true =>
    have e0 : renderRow r ++ rest
        = rowStartLit ++ (r.cls ++ (rowHrefLit ++ (r.href ++ (rowCloseQuoteLit ++
            (r.pre ++ (wbrLit ++ (r.post ++ (rowEndLit ++ rest)))))))) := by
      simp [renderRow, hwbr, List.append_assoc]
    have h2 : (r.cls ++ (rowHrefLit ++ (r.href ++ (rowCloseQuoteLit ++
        (r.pre ++ (wbrLit ++ (r.post ++ (rowEndLit ++ rest)))))))).dropWhile
          (notChar '"')
        = rowHrefLit ++ (r.href ++ (rowCloseQuoteLit ++
            (r.pre ++ (wbrLit ++ (r.post ++ (rowEndLit ++ rest)))))) :=
      dropWhile_notChar_append '"' r.cls _ hcls
    have h4 : (r.href ++ (rowCloseQuoteLit ++
        (r.pre ++ (wbrLit ++ (r.post ++ (rowEndLit ++ rest)))))).takeWhile
          (notChar '"') = r.href :=
      takeWhile_notChar_append '"' r.href _ hhref
    have h5 : (r.href ++ (rowCloseQuoteLit ++
        (r.pre ++ (wbrLit ++ (r.post ++ (rowEndLit ++ rest)))))).dropWhile
          (notChar '"')
        = rowCloseQuoteLit ++ (r.pre ++ (wbrLit ++ (r.post ++ (rowEndLit ++ rest)))) :=
      dropWhile_notChar_append '"' r.href _ hhref
    have h7 : (r.pre ++ (wbrLit ++ (r.post ++ (rowEndLit ++ rest)))).takeWhile
          (notChar '<') = r.pre :=
      takeWhile_notChar_append '<' r.pre _ hpre
    have h8 : (r.pre ++ (wbrLit ++ (r.post ++ (rowEndLit ++ rest)))).dropWhile
          (notChar '<')
        = wbrLit ++ (r.post ++ (rowEndLit ++ rest)) :=
      dropWhile_notChar_append '<' r.pre _ hpre
    have h10 : (r.post ++ (rowEndLit ++ rest)).takeWhile (notChar '<') = r.post :=
      takeWhile_notChar_append '<' r.post _ hpost
    have h11 : (r.post ++ (rowEndLit ++ rest)).dropWhile (notChar '<')
        = rowEndLit ++ rest :=
      dropWhile_notChar_append '<' r.post _ hpost
    rw [e0]
    simp only [matchRowAt, dropLit_self_append, h2, h4, h5, h7, h8, h10, h11,
      if_neg hhrefne, if_neg hpostne]
  | false =>
    have e0 : renderRow r ++ rest
        = rowStartLit ++ (r.cls ++ (rowHrefLit ++ (r.href ++ (rowCloseQuoteLit ++
            (r.pre ++ (r.post ++ (rowEndLit ++ rest))))))) := by
      simp [renderRow, hwbr, List.append_assoc]
    have h2 : (r.cls ++ (rowHrefLit ++ (r.href ++ (rowCloseQuoteLit ++
        (r.pre ++ (r.post ++ (rowEndLit ++ rest))))))).dropWhile (notChar '"')
        = rowHrefLit ++ (r.href ++ (rowCloseQuoteLit ++
            (r.pre ++ (r.post ++ (rowEndLit ++ rest))))) :=
      dropWhile_notChar_append '"' r.cls _ hcls
    have h4 : (r.href ++ (rowCloseQuoteLit ++
        (r.pre ++ (r.post ++ (rowEndLit ++ rest))))).takeWhile (notChar '"')
        = r.href :=
      takeWhile_notChar_append '"' r.href _ hhref
    have h5 : (r.href ++ (rowCloseQuoteLit ++
        (r.pre ++ (r.post ++ (rowEndLit ++ rest))))).dropWhile (notChar '"')
        = rowCloseQuoteLit ++ (r.pre ++ (r.post ++ (rowEndLit ++ rest))) :=
      dropWhile_notChar_append '"' r.href _ hhref
    have hprepost : ∀ c ∈ r.pre ++ r.post, c ≠ '<' := by
      intro c hc
      rcases List.mem_append.mp hc with h | h
      · exact hpre c h
      · exact hpost c h
    have h7 : (r.pre ++ (r.post ++ (rowEndLit ++ rest))).takeWhile (notChar '<')
        = r.pre ++ r.post := by
      rw [← List.append_assoc]
      exact takeWhile_notChar_append '<' (r.pre ++ r.post) _ hprepost
    have h8 : (r.pre ++ (r.post ++ (rowEndLit ++ rest))).dropWhile (notChar '<')
        = rowEndLit ++ rest := by
      rw [← List.append_assoc]
      exact dropWhile_notChar_append '<' (r.pre ++ r.post) _ hprepost
    have h9 : dropLit wbrLit (rowEndLit ++ rest) = none := rfl
    have hne : r.pre ++ r.post ≠ [] :=
      fun h => hpostne (List.append_eq_nil.mp h).2
    rw [e0]
    simp only [matchRowAt, dropLit_self_append, h2, h4, h5, h7, h8, h9,
      if_neg hhrefne, if_neg hne]

theorem scanRows_renderDoc (sep0 : List Char)
    (pieces : List (SummaryRow × List Char))
    (hsep0 : ∀ c ∈ sep0, c ≠ '<')
    (hp : ∀ p ∈ pieces, p.1.wf ∧ ∀ c ∈ p.2, c ≠ '<') :
    scanRows (renderDoc sep0 pieces)
      = pieces.map (fun p => (p.1.href, p.1.pre ++ p.1.post)) := by
  induction pieces generalizing sep0 with
  | nil =>
    have h := scanRows_sep_skip sep0 [] hsep0
    rw [List.append_nil] at h
    simpa [renderDoc] using h
  | cons p ps ih =>
    have hstruct : renderDoc sep0 (p :: ps)
        = sep0 ++ (renderRow p.1 ++ renderDoc p.2 ps) := by
      simp [renderDoc, List.append_assoc]
    rw [hstruct, scanRows_sep_skip _ _ hsep0,
      scanRows_step_some
        (matchRowAt_renderRow p.1 (renderDoc p.2 ps) (hp p (by simp)).1)]
    simp only [List.map_cons]
    congr 1
    exact ih p.2 ((hp p (by simp)).2) (fun q hq => hp q (List.mem_cons_of_mem p hq))

/-- **C2** — For every index markup consisting of N well-formed summary rows
(an anchor inside a "col-summary-item-name" cell) interleaved with
row-free separator text, the index extractor yields exactly N
(detailPath, symbolLabel) entries in document order, and a label split
across a `<wbr>` soft-wrap marker is reassembled by concatenating the
pre-wrap and post-wrap fragments (`p.1.pre ++ p.1.post`). -/
theorem c2_index_extractor_exact_rows (sep0 : List Char)
    (pieces : List (SummaryRow × List Char))
    (hsep0 : ∀ c ∈ sep0, c ≠ '<')
    (hp : ∀ p ∈ pieces, p.1.wf ∧ ∀ c ∈ p.2, c ≠ '<') :
    scanRows (renderDoc sep0 pieces)
        = pieces.map (fun p => (p.1.href, p.1.pre ++ p.1.post)) ∧
    (scanRows (renderDoc sep0 pieces)).length = pieces.length := by
  have h := scanRows_renderDoc sep0 pieces hsep0 hp
  exact ⟨h, by rw [h]; simp⟩

/-- Witness for C2: two rows — one label split by `<wbr>`, one unsplit —
with plain-text separators around them; the extractor returns exactly those
two entries, the wrapped label reassembled. -/
theorem c2_index_extractor_exact_rows_witness :
    scanRows (renderDoc "deprecated items: ".data
      [(⟨[], "a/B.html#m()".data, "Material.".data, true, "getId()".data⟩,
          " , ".data),
        (⟨" even".data, "a/C.html".data, [], false, "C.run".data⟩,
          " trailing text".data)])
      = [("a/B.html#m()".data, "Material.getId()".data),
          ("a/C.html".data, "C.run".data)] := by
  have h := c2_index_extractor_exact_rows "deprecated items: ".data
    [(⟨[], "a/B.html#m()".data, "Material.".data, true, "getId()".data⟩,
        " , ".data),
      (⟨" even".data, "a/C.html".data, [], false, "C.run".data⟩,
        " trailing text".data)]
    (by decide) (by decide)
  exact h.1.trans (by decide)
